import Mathlib

/-!
Verification of the typed-transaction envelope codec of
`src/ethereum/cancun/transactions.py`.

The four transaction record types, the closed union `Transaction`, and the
functions `encode_transaction` / `decode_transaction` are embedded from the
source file.  The structural (RLP) codec lives in the repository's `rlp`
module, which is outside the provided sources; it is modelled from the
specification's description (a recursive length-prefixed encoding of nested
lists and byte strings, with canonical shortest-form big-endian integers).
-/

namespace CancunTx

/-- Byte strings are lists of byte values. -/
abbrev Bytes := List Nat

/-- `U64`: unsigned 64-bit quantity, rejected at construction when out of range. -/
abbrev U64 := {n : Nat // n < 2 ^ 64}

/-- `U256`: unsigned 256-bit quantity, rejected at construction when out of range. -/
abbrev U256 := {n : Nat // n < 2 ^ 256}

/-- `Uint`: arbitrary-precision non-negative integer. -/
abbrev Uint := Nat

/-- `Bytes32`: fixed-length 32-byte string. -/
abbrev Bytes32 := {b : Bytes // b.length = 32}

/-- `Address`: fixed-length 20-byte string (`fork_types.Address`). -/
abbrev Address := {b : Bytes // b.length = 20}

/-- `VersionedHash` is an alias of `Bytes32` in `fork_types`. -/
abbrev VersionedHash := Bytes32

/-- The `to` field of Legacy/AccessList/FeeMarket transactions:
`Union[Bytes0, Address]`.  `none` is the zero-length `Bytes0` marker
(contract creation); `some a` is a concrete 20-byte address. -/
abbrev ToField := Option Address

/-- Access list entries: `Tuple[Tuple[Address, Tuple[Bytes32, ...]], ...]`. -/
abbrev AccessList := List (Address × List Bytes32)

def TX_BASE_COST : Nat := 21000
def STANDARD_TOKEN_COST : Nat := 4
def TOTAL_COST_FLOOR_PER_TOKEN : Nat := 12
def TX_CREATE_COST : Nat := 32000
def TX_ACCESS_LIST_ADDRESS_COST : Nat := 2400
def TX_ACCESS_LIST_STORAGE_KEY_COST : Nat := 1900

/-- `LegacyTransaction`: atomic operation performed on the block chain. -/
structure LegacyTransaction where
  nonce : U256
  gas_price : Uint
  gas : Uint
  «to» : ToField
  value : U256
  data : Bytes
  v : U256
  r : U256
  s : U256
deriving DecidableEq

/-- `AccessListTransaction`: the transaction type added in EIP-2930. -/
structure AccessListTransaction where
  chain_id : U64
  nonce : U256
  gas_price : Uint
  gas : Uint
  «to» : ToField
  value : U256
  data : Bytes
  access_list : AccessList
  y_parity : U256
  r : U256
  s : U256
deriving DecidableEq

/-- `FeeMarketTransaction`: the transaction type added in EIP-1559. -/
structure FeeMarketTransaction where
  chain_id : U64
  nonce : U256
  max_priority_fee_per_gas : Uint
  max_fee_per_gas : Uint
  gas : Uint
  «to» : ToField
  value : U256
  data : Bytes
  access_list : AccessList
  y_parity : U256
  r : U256
  s : U256
deriving DecidableEq

/-- `BlobTransaction`: the transaction type added in EIP-4844.
Its `to` field is a bare `Address`: the `Bytes0` no-recipient marker is not
part of the field's type, so contract creation is excluded at construction. -/
structure BlobTransaction where
  chain_id : U64
  nonce : U256
  max_priority_fee_per_gas : Uint
  max_fee_per_gas : Uint
  gas : Uint
  «to» : Address
  value : U256
  data : Bytes
  access_list : AccessList
  max_fee_per_blob_gas : U256
  blob_versioned_hashes : List VersionedHash
  y_parity : U256
  r : U256
  s : U256
deriving DecidableEq

/-- The closed sum `Transaction = Union[LegacyTransaction,
AccessListTransaction, FeeMarketTransaction, BlobTransaction]`. -/
inductive Transaction where
  | legacy (tx : LegacyTransaction)
  | accessList (tx : AccessListTransaction)
  | feeMarket (tx : FeeMarketTransaction)
  | blob (tx : BlobTransaction)
deriving DecidableEq

/-! ### The structural codec, encoding side.

Modelled from the spec: the external structural codec (`rlp.encode`), a
recursive length-prefixed encoding of nested lists and byte strings with
canonical shortest-form big-endian integers, specialised to the fixed field
layouts of the four transaction records. -/

/-- Minimal big-endian byte representation of a natural number (`0 ↦ []`).
The first argument is recursion fuel; `natToBytes` supplies enough. -/
def natToBytesAux : Nat → Nat → Bytes
  | 0, _ => []
  | fuel + 1, n => if n = 0 then [] else natToBytesAux fuel (n / 256) ++ [n % 256]

/-- Modelled from the spec: canonical shortest-form big-endian integer bytes. -/
def natToBytes (n : Nat) : Bytes := natToBytesAux n n

/-- Big-endian interpretation of a byte string as a natural number. -/
def bytesToNat (b : Bytes) : Nat := b.foldl (fun acc d => acc * 256 + d) 0

/-- Length header of the structural codec: single byte `short + len` when
`len < 56`, otherwise `long + |lenBytes|` followed by the big-endian length. -/
def encLength (short long len : Nat) : Bytes :=
  if len < 56 then [short + len]
  else
    let lb := natToBytes len
    (long + lb.length) :: lb

/-- Modelled from the spec: encoding of one byte-string item
(single byte below 128 stands for itself; otherwise length-prefixed). -/
def encBytesItem (b : Bytes) : Bytes :=
  match b with
  | [x] => if x < 128 then [x] else [129, x]
  | _ => encLength 128 183 b.length ++ b

/-- Modelled from the spec: encoding of a scalar as its canonical bytes. -/
def encNat (n : Nat) : Bytes := encBytesItem (natToBytes n)

/-- Modelled from the spec: wrap an already-encoded payload as a list item. -/
def encListPayload (p : Bytes) : Bytes := encLength 192 247 p.length ++ p

/-- Encoding of a `to` field: the `Bytes0` marker is the empty byte string. -/
def encTo : ToField → Bytes
  | none => encBytesItem []
  | some a => encBytesItem a.val

/-- Encoding of one 32-byte item. -/
def encB32 (k : Bytes32) : Bytes := encBytesItem k.val

/-- Encoding of one access-list entry `(address, storage keys)`. -/
def encAccessEntry (e : Address × List Bytes32) : Bytes :=
  encListPayload (encBytesItem e.1.val ++ encListPayload ((e.2.map encB32).flatten))

/-- Encoding of a whole access list. -/
def encAccessList (al : AccessList) : Bytes :=
  encListPayload ((al.map encAccessEntry).flatten)

/-- Encoding of the blob versioned-hash list. -/
def encHashes (hs : List VersionedHash) : Bytes :=
  encListPayload ((hs.map encB32).flatten)

/-- The field payload of a Legacy transaction, in declared field order. -/
def legacyPayload (tx : LegacyTransaction) : Bytes :=
  encNat tx.nonce.val ++ encNat tx.gas_price ++ encNat tx.gas ++ encTo tx.«to» ++
    encNat tx.value.val ++ encBytesItem tx.data ++ encNat tx.v.val ++
    encNat tx.r.val ++ encNat tx.s.val

/-- Modelled from the spec: `rlp.encode` of a `LegacyTransaction`, the
structural list encoding of its nine fields in declared order. -/
def rlpEncodeLegacy (tx : LegacyTransaction) : Bytes :=
  encListPayload (legacyPayload tx)

/-- The field payload of an AccessList transaction, in declared field order. -/
def accessListPayload (tx : AccessListTransaction) : Bytes :=
  encNat tx.chain_id.val ++ encNat tx.nonce.val ++ encNat tx.gas_price ++
    encNat tx.gas ++ encTo tx.«to» ++ encNat tx.value.val ++ encBytesItem tx.data ++
    encAccessList tx.access_list ++ encNat tx.y_parity.val ++ encNat tx.r.val ++
    encNat tx.s.val

/-- Modelled from the spec: `rlp.encode` of an `AccessListTransaction`. -/
def rlpEncodeAccessList (tx : AccessListTransaction) : Bytes :=
  encListPayload (accessListPayload tx)

/-- The field payload of a FeeMarket transaction, in declared field order. -/
def feeMarketPayload (tx : FeeMarketTransaction) : Bytes :=
  encNat tx.chain_id.val ++ encNat tx.nonce.val ++
    encNat tx.max_priority_fee_per_gas ++ encNat tx.max_fee_per_gas ++
    encNat tx.gas ++ encTo tx.«to» ++ encNat tx.value.val ++ encBytesItem tx.data ++
    encAccessList tx.access_list ++ encNat tx.y_parity.val ++ encNat tx.r.val ++
    encNat tx.s.val

/-- Modelled from the spec: `rlp.encode` of a `FeeMarketTransaction`. -/
def rlpEncodeFeeMarket (tx : FeeMarketTransaction) : Bytes :=
  encListPayload (feeMarketPayload tx)

/-- The field payload of a Blob transaction, in declared field order. -/
def blobPayload (tx : BlobTransaction) : Bytes :=
  encNat tx.chain_id.val ++ encNat tx.nonce.val ++
    encNat tx.max_priority_fee_per_gas ++ encNat tx.max_fee_per_gas ++
    encNat tx.gas ++ encBytesItem tx.«to».val ++ encNat tx.value.val ++
    encBytesItem tx.data ++ encAccessList tx.access_list ++
    encNat tx.max_fee_per_blob_gas.val ++ encHashes tx.blob_versioned_hashes ++
    encNat tx.y_parity.val ++ encNat tx.r.val ++ encNat tx.s.val

/-- Modelled from the spec: `rlp.encode` of a `BlobTransaction`. -/
def rlpEncodeBlob (tx : BlobTransaction) : Bytes :=
  encListPayload (blobPayload tx)

end CancunTx

namespace CancunTx

/-! ### The structural codec, decoding side.

Modelled from the spec: `rlp.decode_to(shape, raw)`, a parser over the wire
bytes that enforces exact field count and order per variant and rejects
non-canonical forms (non-shortest headers, leading-zero integers). -/

/-- Parse one byte-string item; returns its contents and the remaining input. -/
def parseBytesItem : Bytes → Option (Bytes × Bytes)
  | [] => none
  | b0 :: rest =>
    if b0 < 128 then some ([b0], rest)
    else if b0 < 184 then
      let len := b0 - 128
      if rest.length < len then none
      else if len = 1 ∧ rest.headD 0 < 128 then none
      else some (rest.take len, rest.drop len)
    else if b0 < 192 then
      let ll := b0 - 183
      if rest.length < ll then none
      else
        let lb := rest.take ll
        let len := bytesToNat lb
        let r2 := rest.drop ll
        if lb.headD 1 = 0 then none
        else if len < 56 then none
        else if r2.length < len then none
        else some (r2.take len, r2.drop len)
    else none

/-- Parse one list item; returns its payload and the remaining input. -/
def parseListItem : Bytes → Option (Bytes × Bytes)
  | [] => none
  | b0 :: rest =>
    if b0 < 192 then none
    else if b0 < 248 then
      let len := b0 - 192
      if rest.length < len then none
      else some (rest.take len, rest.drop len)
    else
      let ll := b0 - 247
      if rest.length < ll then none
      else
        let lb := rest.take ll
        let len := bytesToNat lb
        let r2 := rest.drop ll
        if lb.headD 1 = 0 then none
        else if len < 56 then none
        else if r2.length < len then none
        else some (r2.take len, r2.drop len)

/-- Parse a scalar: a byte-string item with no leading zero byte. -/
def parseNat (b : Bytes) : Option (Nat × Bytes) := do
  let (v, rest) ← parseBytesItem b
  if v.headD 1 = 0 then none else pure (bytesToNat v, rest)

/-- Parse a scalar that must fit in 64 bits (`U64` field). -/
def parseU64f (b : Bytes) : Option (U64 × Bytes) := do
  let (n, rest) ← parseNat b
  if h : n < 2 ^ 64 then pure (⟨n, h⟩, rest) else none

/-- Parse a scalar that must fit in 256 bits (`U256` field). -/
def parseU256f (b : Bytes) : Option (U256 × Bytes) := do
  let (n, rest) ← parseNat b
  if h : n < 2 ^ 256 then pure (⟨n, h⟩, rest) else none

/-- Parse a 20-byte address field. -/
def parseAddressItem (b : Bytes) : Option (Address × Bytes) := do
  let (a, rest) ← parseBytesItem b
  if h : a.length = 20 then pure (⟨a, h⟩, rest) else none

/-- Parse a `Union[Bytes0, Address]` field: empty marker or 20 bytes. -/
def parseToItem (b : Bytes) : Option (ToField × Bytes) := do
  let (a, rest) ← parseBytesItem b
  if a.length = 0 then pure ((none : ToField), rest)
  else if h : a.length = 20 then pure (some ⟨a, h⟩, rest) else none

/-- Parse a 32-byte item (`Bytes32` / `VersionedHash`). -/
def parseB32Item (b : Bytes) : Option (Bytes32 × Bytes) := do
  let (k, rest) ← parseBytesItem b
  if h : k.length = 32 then pure (⟨k, h⟩, rest) else none

/-- Parse a sequence of 32-byte items filling a list payload exactly.
The fuel argument only bounds recursion depth. -/
def parseB32ListAux : Nat → Bytes → Option (List Bytes32)
  | _, [] => some []
  | 0, _ :: _ => none
  | fuel + 1, b => do
    let (k, r) ← parseB32Item b
    let ks ← parseB32ListAux fuel r
    pure (k :: ks)

/-- Parse the payload of a storage-key or versioned-hash list. -/
def parseB32List (b : Bytes) : Option (List Bytes32) := parseB32ListAux b.length b

/-- Parse one access-list entry: a two-item list `(address, storage keys)`. -/
def parseAccessEntry (b : Bytes) : Option ((Address × List Bytes32) × Bytes) := do
  let (p, rest) ← parseListItem b
  let (a, p1) ← parseAddressItem p
  let (kp, p2) ← parseListItem p1
  guard (p2 = [])
  let ks ← parseB32List kp
  pure ((a, ks), rest)

/-- Parse a sequence of access-list entries filling a list payload exactly. -/
def parseEntriesAux : Nat → Bytes → Option AccessList
  | _, [] => some []
  | 0, _ :: _ => none
  | fuel + 1, b => do
    let (e, r) ← parseAccessEntry b
    let es ← parseEntriesAux fuel r
    pure (e :: es)

/-- Parse the payload of an access list. -/
def parseAccessListPayload (b : Bytes) : Option AccessList :=
  parseEntriesAux b.length b

/-- Parse the four leading scalar fields of an AccessList transaction. -/
def parseALHead (b : Bytes) : Option ((U64 × U256 × Uint × Uint) × Bytes) := do
  let (chain_id, p) ← parseU64f b
  let (nonce, p) ← parseU256f p
  let (gas_price, p) ← parseNat p
  let (gas, p) ← parseNat p
  pure ((chain_id, nonce, gas_price, gas), p)

/-- Parse the five leading scalar fields of a FeeMarket/Blob transaction. -/
def parseFMHead (b : Bytes) : Option ((U64 × U256 × Uint × Uint × Uint) × Bytes) := do
  let (chain_id, p) ← parseU64f b
  let (nonce, p) ← parseU256f p
  let (mpf, p) ← parseNat p
  let (mf, p) ← parseNat p
  let (gas, p) ← parseNat p
  pure ((chain_id, nonce, mpf, mf, gas), p)

/-- Parse the `to`, `value`, `data`, `access_list` field group. -/
def parseMid (b : Bytes) : Option ((ToField × U256 × Bytes × AccessList) × Bytes) := do
  let (toF, p) ← parseToItem b
  let (value, p) ← parseU256f p
  let (dat, p) ← parseBytesItem p
  let (alp, p) ← parseListItem p
  let al ← parseAccessListPayload alp
  pure ((toF, value, dat, al), p)

/-- Parse the `to` (mandatory address), `value`, `data`, `access_list`
field group of a Blob transaction. -/
def parseBlobMid (b : Bytes) : Option ((Address × U256 × Bytes × AccessList) × Bytes) := do
  let (toA, p) ← parseAddressItem b
  let (value, p) ← parseU256f p
  let (dat, p) ← parseBytesItem p
  let (alp, p) ← parseListItem p
  let al ← parseAccessListPayload alp
  pure ((toA, value, dat, al), p)

/-- Parse the `max_fee_per_blob_gas` and `blob_versioned_hashes` fields. -/
def parseBlobGroup (b : Bytes) : Option ((U256 × List VersionedHash) × Bytes) := do
  let (mfbg, p) ← parseU256f b
  let (hp, p) ← parseListItem p
  let hs ← parseB32List hp
  pure ((mfbg, hs), p)

/-- Parse the `y_parity`, `r`, `s` signature fields. -/
def parseSig (b : Bytes) : Option ((U256 × U256 × U256) × Bytes) := do
  let (y, p) ← parseU256f b
  let (r, p) ← parseU256f p
  let (s, p) ← parseU256f p
  pure ((y, r, s), p)

/-- Modelled from the spec: `rlp.decode_to(AccessListTransaction, raw)`,
enforcing exact field count and declared order. -/
def decodeToAccessList (raw : Bytes) : Option AccessListTransaction := do
  let (p, rest) ← parseListItem raw
  guard (rest = [])
  let ((chain_id, nonce, gas_price, gas), p) ← parseALHead p
  let ((toF, value, dat, al), p) ← parseMid p
  let ((y_parity, r, s), p) ← parseSig p
  guard (p = [])
  pure ⟨chain_id, nonce, gas_price, gas, toF, value, dat, al, y_parity, r, s⟩

/-- Modelled from the spec: `rlp.decode_to(FeeMarketTransaction, raw)`,
enforcing exact field count and declared order. -/
def decodeToFeeMarket (raw : Bytes) : Option FeeMarketTransaction := do
  let (p, rest) ← parseListItem raw
  guard (rest = [])
  let ((chain_id, nonce, mpf, mf, gas), p) ← parseFMHead p
  let ((toF, value, dat, al), p) ← parseMid p
  let ((y_parity, r, s), p) ← parseSig p
  guard (p = [])
  pure ⟨chain_id, nonce, mpf, mf, gas, toF, value, dat, al, y_parity, r, s⟩

/-- Modelled from the spec: `rlp.decode_to(BlobTransaction, raw)`,
enforcing exact field count and declared order. -/
def decodeToBlob (raw : Bytes) : Option BlobTransaction := do
  let (p, rest) ← parseListItem raw
  guard (rest = [])
  let ((chain_id, nonce, mpf, mf, gas), p) ← parseFMHead p
  let ((toA, value, dat, al), p) ← parseBlobMid p
  let ((mfbg, hs), p) ← parseBlobGroup p
  let ((y_parity, r, s), p) ← parseSig p
  guard (p = [])
  pure ⟨chain_id, nonce, mpf, mf, gas, toA, value, dat, al, mfbg, hs, y_parity, r, s⟩

/-! ### The envelope codec of `transactions.py`. -/

/-- The exception kinds the embedded code can signal: `InvalidBlock` (the
block-validity error), `IndexError` (out-of-bounds indexing), and the plain
`Exception` raised for a value outside the `Transaction` union. -/
inductive PyError where
  | invalidBlock
  | indexError
  | exception (msg : String)
deriving DecidableEq

/-- A runtime value outside the `Transaction` union, identified only by its
type name (which feeds the exception message). -/
structure ForeignValue where
  typeName : String
deriving DecidableEq

/-- The runtime argument domain of `encode_transaction`: a `Transaction`, or
any other value (the annotation promises `Transaction` but Python does not
enforce it; the `isinstance` chain sees every runtime value). -/
inductive EncodeInput where
  | tx (t : Transaction)
  | foreign (v : ForeignValue)
deriving DecidableEq

/-- `Union[LegacyTransaction, Bytes]`: the codomain of `encode_transaction`
and the runtime domain of `decode_transaction`.  At runtime the non-bytes
side can carry any of the four records, not only a `LegacyTransaction`
(`decode_transaction` never checks which). -/
inductive TxOrBytes where
  | record (t : Transaction)
  | bytes (b : Bytes)
deriving DecidableEq

/-- Embedding of `encode_transaction` (transactions.py, lines 121-134):
a Legacy value is returned as-is; the typed variants get their discriminant
byte prepended to their structural encoding; anything else raises `Exception`. -/
def encode_transaction : EncodeInput → Except PyError TxOrBytes
  | .tx (.legacy tx) => .ok (.record (.legacy tx))
  | .tx (.accessList tx) => .ok (.bytes (1 :: rlpEncodeAccessList tx))
  | .tx (.feeMarket tx) => .ok (.bytes (2 :: rlpEncodeFeeMarket tx))
  | .tx (.blob tx) => .ok (.bytes (3 :: rlpEncodeBlob tx))
  | .foreign v =>
      .error (.exception ("Unable to encode transaction of type " ++ v.typeName))

/-- Embedding of `decode_transaction` (transactions.py, lines 137-151):
on bytes, `tx[0]` dispatches on the discriminant (raising `IndexError` when
the string is empty and `InvalidBlock` on an unrecognized byte; a failing
`rlp.decode_to` is modelled from the spec as the invalid-envelope
block-validity error); any non-bytes value is returned unchanged. -/
def decode_transaction : TxOrBytes → Except PyError Transaction
  | .bytes [] => .error .indexError
  | .bytes (b0 :: rest) =>
    if b0 = 1 then
      match decodeToAccessList rest with
      | some t => .ok (.accessList t)
      | none => .error .invalidBlock
    else if b0 = 2 then
      match decodeToFeeMarket rest with
      | some t => .ok (.feeMarket t)
      | none => .error .invalidBlock
    else if b0 = 3 then
      match decodeToBlob rest with
      | some t => .ok (.blob t)
      | none => .error .invalidBlock
    else .error .invalidBlock
  | .record t => .ok t

end CancunTx

deriving instance DecidableEq for Except

namespace CancunTx

/-! ### Width constraints and concrete values.

Modelled from the spec: the external codec is length-prefix-correct, which
presumes every encoded length fits its length-prefix budget (the repository
codec enforces lengths below `2 ^ 64`; the comfortable per-field bounds below
imply every nested payload fits). -/

/-- Width constraints on an access list under which the codec is defined. -/
abbrev accessListWf (al : AccessList) : Prop :=
  al.length < 2 ^ 24 ∧ ∀ e ∈ al, e.2.length < 2 ^ 24

/-- Width constraints on a `LegacyTransaction`'s unbounded fields. -/
abbrev LegacyTransactionWf (tx : LegacyTransaction) : Prop :=
  tx.gas_price < 2 ^ 256 ∧ tx.gas < 2 ^ 256 ∧ tx.data.length < 2 ^ 32

/-- Width constraints on an `AccessListTransaction`'s unbounded fields. -/
abbrev AccessListTransactionWf (tx : AccessListTransaction) : Prop :=
  tx.gas_price < 2 ^ 256 ∧ tx.gas < 2 ^ 256 ∧ tx.data.length < 2 ^ 32 ∧
    accessListWf tx.access_list

/-- Width constraints on a `FeeMarketTransaction`'s unbounded fields. -/
abbrev FeeMarketTransactionWf (tx : FeeMarketTransaction) : Prop :=
  tx.max_priority_fee_per_gas < 2 ^ 256 ∧ tx.max_fee_per_gas < 2 ^ 256 ∧
    tx.gas < 2 ^ 256 ∧ tx.data.length < 2 ^ 32 ∧ accessListWf tx.access_list

/-- Width constraints on a `BlobTransaction`'s unbounded fields. -/
abbrev BlobTransactionWf (tx : BlobTransaction) : Prop :=
  tx.max_priority_fee_per_gas < 2 ^ 256 ∧ tx.max_fee_per_gas < 2 ^ 256 ∧
    tx.gas < 2 ^ 256 ∧ tx.data.length < 2 ^ 32 ∧ accessListWf tx.access_list ∧
    tx.blob_versioned_hashes.length < 2 ^ 24

/-- Width constraints on a `Transaction`, by variant. -/
abbrev TransactionWf : Transaction → Prop
  | .legacy tx => LegacyTransactionWf tx
  | .accessList tx => AccessListTransactionWf tx
  | .feeMarket tx => FeeMarketTransactionWf tx
  | .blob tx => BlobTransactionWf tx

/-- The 20-zero-byte address. -/
def zeroAddr : Address := ⟨List.replicate 20 0, by simp⟩

/-- The concrete FeeMarket transaction of the specification's scenario
(`chain_id=1, nonce=0, max_priority_fee_per_gas=1, max_fee_per_gas=100,
gas=21000, to=<20 zero bytes>, value=0, data=empty, access_list=empty,
y_parity=0, r=1, s=1`). -/
def scenarioFeeMarketTx : FeeMarketTransaction :=
  { chain_id := ⟨1, by norm_num⟩
    nonce := ⟨0, by norm_num⟩
    max_priority_fee_per_gas := 1
    max_fee_per_gas := 100
    gas := 21000
    «to» := some zeroAddr
    value := ⟨0, by norm_num⟩
    data := []
    access_list := []
    y_parity := ⟨0, by norm_num⟩
    r := ⟨1, by norm_num⟩
    s := ⟨1, by norm_num⟩ }

/-- A concrete Legacy transaction. -/
def sampleLegacyTx : LegacyTransaction :=
  { nonce := ⟨0, by norm_num⟩
    gas_price := 10
    gas := 21000
    «to» := some zeroAddr
    value := ⟨5, by norm_num⟩
    data := []
    v := ⟨27, by norm_num⟩
    r := ⟨1, by norm_num⟩
    s := ⟨1, by norm_num⟩ }

/-! ### Facts about the canonical integer bytes. -/

theorem bytesToNat_append (xs : Bytes) (d : Nat) :
    bytesToNat (xs ++ [d]) = bytesToNat xs * 256 + d := by
  simp [bytesToNat, List.foldl_append]

theorem natToBytesAux_zero (fuel : Nat) : natToBytesAux fuel 0 = [] := by
  cases fuel <;> simp [natToBytesAux]

theorem natToBytesAux_spec : ∀ fuel n, n ≤ fuel →
    bytesToNat (natToBytesAux fuel n) = n := by
  intro fuel
  induction fuel with
  | zero =>
    intro n hn
    have h0 : n = 0 := by omega
    subst h0
    rfl
  | succ f ih =>
    intro n hn
    by_cases h0 : n = 0
    · subst h0; simp [natToBytesAux, bytesToNat]
    · have hdiv : n / 256 < n := Nat.div_lt_self (Nat.pos_of_ne_zero h0) (by norm_num)
      rw [natToBytesAux]
      simp only [h0, if_false]
      rw [bytesToNat_append, ih (n / 256) (by omega)]
      omega

theorem bytesToNat_natToBytes (n : Nat) : bytesToNat (natToBytes n) = n :=
  natToBytesAux_spec n n le_rfl

theorem natToBytesAux_ne_nil (fuel n : Nat) (h0 : n ≠ 0) (hle : n ≤ fuel) :
    natToBytesAux fuel n ≠ [] := by
  cases fuel with
  | zero => omega
  | succ f => simp [natToBytesAux, h0]

theorem natToBytes_ne_nil (n : Nat) (h0 : n ≠ 0) : natToBytes n ≠ [] :=
  natToBytesAux_ne_nil n n h0 le_rfl

theorem headD_append_of_ne_nil (l : List Nat) (x d : Nat) (h : l ≠ []) :
    (l ++ [x]).headD d = l.headD d := by
  cases l with
  | nil => exact absurd rfl h
  | cons a t => rfl

theorem natToBytesAux_headD : ∀ fuel n, n ≤ fuel →
    (natToBytesAux fuel n).headD 1 ≠ 0 := by
  intro fuel
  induction fuel with
  | zero =>
    intro n hn
    have h0 : n = 0 := by omega
    subst h0
    simp [natToBytesAux]
  | succ f ih =>
    intro n hn
    by_cases h0 : n = 0
    · subst h0; simp [natToBytesAux]
    · rw [natToBytesAux]
      simp only [h0, if_false]
      by_cases hq : n / 256 = 0
      · rw [hq, natToBytesAux_zero]
        have : n % 256 = n := by omega
        simp [this, h0]
      · have hdiv : n / 256 < n := Nat.div_lt_self (Nat.pos_of_ne_zero h0) (by norm_num)
        rw [headD_append_of_ne_nil _ _ _ (natToBytesAux_ne_nil f (n / 256) hq (by omega))]
        exact ih (n / 256) (by omega)

theorem natToBytes_headD (n : Nat) : (natToBytes n).headD 1 ≠ 0 :=
  natToBytesAux_headD n n le_rfl

theorem natToBytesAux_length_le : ∀ fuel n k, n ≤ fuel → n < 256 ^ k →
    (natToBytesAux fuel n).length ≤ k := by
  intro fuel
  induction fuel with
  | zero =>
    intro n k hn hk
    have h0 : n = 0 := by omega
    subst h0
    simp [natToBytesAux]
  | succ f ih =>
    intro n k hn hk
    by_cases h0 : n = 0
    · subst h0; simp [natToBytesAux]
    · rw [natToBytesAux]
      simp only [h0, if_false]
      cases k with
      | zero => simp at hk; omega
      | succ j =>
        have hdiv : n / 256 < n := Nat.div_lt_self (Nat.pos_of_ne_zero h0) (by norm_num)
        have hq : n / 256 < 256 ^ j := by
          apply Nat.div_lt_of_lt_mul
          calc n < 256 ^ (j + 1) := hk
            _ = 256 * 256 ^ j := by ring
        have := ih (n / 256) j (by omega) hq
        simp only [List.length_append, List.length_cons, List.length_nil]
        omega

theorem natToBytes_length_le (n k : Nat) (hk : n < 256 ^ k) :
    (natToBytes n).length ≤ k :=
  natToBytesAux_length_le n n k le_rfl hk

end CancunTx

namespace CancunTx

/-! ### Shape and length facts about the encoders. -/

theorem encBytesItem_of_length_ne_one (b : Bytes) (h : b.length ≠ 1) :
    encBytesItem b = encLength 128 183 b.length ++ b := by
  cases b with
  | nil => rfl
  | cons x t =>
    cases t with
    | nil => simp at h
    | cons y t2 => rfl

theorem encLength_ne_nil (s l len : Nat) : encLength s l len ≠ [] := by
  unfold encLength
  by_cases h : len < 56 <;> simp [h]

theorem encBytesItem_ne_nil (b : Bytes) : encBytesItem b ≠ [] := by
  cases b with
  | nil => simp [encBytesItem, encLength]
  | cons x t =>
    cases t with
    | nil =>
      by_cases h : x < 128 <;> simp [encBytesItem, h]
    | cons y t2 =>
      have := encLength_ne_nil 128 183 (x :: y :: t2).length
      simp [encBytesItem]

theorem encListPayload_ne_nil (p : Bytes) : encListPayload p ≠ [] := by
  have := encLength_ne_nil 192 247 p.length
  simp [encListPayload]
  intro h
  exact absurd h this

theorem encLength_length_le (s l len : Nat) (h : len < 2 ^ 64) :
    (encLength s l len).length ≤ 9 := by
  unfold encLength
  by_cases h56 : len < 56
  · simp [h56]
  · have h8 : (natToBytes len).length ≤ 8 :=
      natToBytes_length_le len 8 (by norm_num at h ⊢; omega)
    simp [h56]
    omega

theorem encBytesItem_length_le (b : Bytes) (h : b.length < 2 ^ 64) :
    (encBytesItem b).length ≤ b.length + 9 := by
  cases b with
  | nil => simp [encBytesItem, encLength]
  | cons x t =>
    cases t with
    | nil =>
      by_cases hx : x < 128 <;> simp [encBytesItem, hx]
    | cons y t2 =>
      rw [encBytesItem_of_length_ne_one _ (by simp)]
      have := encLength_length_le 128 183 (x :: y :: t2).length h
      simp only [List.length_append]
      omega

theorem encListPayload_length_le (p : Bytes) (h : p.length < 2 ^ 64) :
    (encListPayload p).length ≤ p.length + 9 := by
  have := encLength_length_le 192 247 p.length h
  simp only [encListPayload, List.length_append]
  omega

theorem encNat_length_le (n : Nat) (h : n < 2 ^ 256) :
    (encNat n).length ≤ 41 := by
  have h32 : (natToBytes n).length ≤ 32 :=
    natToBytes_length_le n 32 (by norm_num at h ⊢; omega)
  have := encBytesItem_length_le (natToBytes n) (by omega)
  simp only [encNat]
  omega

end CancunTx

namespace CancunTx

/-! ### Round-trip of single items through the structural codec. -/

theorem parseBytesItem_enc (b rest : Bytes) (hb : b.length < 2 ^ 64) :
    parseBytesItem (encBytesItem b ++ rest) = some (b, rest) := by
  cases b with
  | nil => simp [encBytesItem, encLength, parseBytesItem]
  | cons x t =>
    cases t with
    | nil =>
      by_cases hx : x < 128
      · simp [encBytesItem, hx, parseBytesItem]
      · simp [encBytesItem, hx, parseBytesItem]
    | cons y t2 =>
      rw [encBytesItem_of_length_ne_one _ (by simp)]
      set b := x :: y :: t2 with hbdef
      have hL2 : 2 ≤ b.length := by simp [hbdef]
      by_cases h56 : b.length < 56
      · have henc : encLength 128 183 b.length = [128 + b.length] := by
          simp [encLength, h56]
        rw [henc]
        simp only [List.cons_append, List.nil_append, parseBytesItem]
        rw [if_neg (by omega), if_pos (by omega)]
        have hlen : 128 + b.length - 128 = b.length := by omega
        rw [hlen]
        rw [if_neg (by simp only [List.length_append]; omega)]
        rw [if_neg (by simp; omega)]
        rw [List.take_left' rfl, List.drop_left' rfl]
      · have hnn : b.length ≠ 0 := by omega
        have hll1 : natToBytes b.length ≠ [] := natToBytes_ne_nil _ hnn
        have hll8 : (natToBytes b.length).length ≤ 8 :=
          natToBytes_length_le _ 8 (by norm_num at hb ⊢; omega)
        set lb := natToBytes b.length with hlb
        have henc : encLength 128 183 b.length = (183 + lb.length) :: lb := by
          simp [encLength, h56, hlb]
        rw [henc]
        simp only [List.cons_append, List.append_assoc, parseBytesItem]
        have hllpos : 1 ≤ lb.length := by
          cases hlbe : lb with
          | nil => exact absurd hlbe hll1
          | cons a s => simp
        rw [if_neg (by omega), if_neg (by omega), if_pos (by omega)]
        have h183 : 183 + lb.length - 183 = lb.length := by omega
        rw [h183]
        rw [if_neg (by simp only [List.length_append]; omega)]
        rw [List.take_left' rfl, List.drop_left' rfl]
        rw [if_neg (by simpa [hlb] using natToBytes_headD b.length)]
        rw [hlb, bytesToNat_natToBytes]
        rw [if_neg (by omega)]
        rw [if_neg (by simp only [List.length_append]; omega)]
        rw [List.take_left' rfl, List.drop_left' rfl]

theorem parseListItem_enc (p rest : Bytes) (hp : p.length < 2 ^ 64) :
    parseListItem (encListPayload p ++ rest) = some (p, rest) := by
  by_cases h56 : p.length < 56
  · have henc : encListPayload p = (192 + p.length) :: p := by
      simp [encListPayload, encLength, h56]
    rw [henc]
    simp only [List.cons_append, parseListItem]
    rw [if_neg (by omega), if_pos (by omega)]
    have hlen : 192 + p.length - 192 = p.length := by omega
    rw [hlen]
    rw [if_neg (by simp only [List.length_append]; omega)]
    rw [List.take_left' rfl, List.drop_left' rfl]
  · have hnn : p.length ≠ 0 := by omega
    have hll1 : natToBytes p.length ≠ [] := natToBytes_ne_nil _ hnn
    have hll8 : (natToBytes p.length).length ≤ 8 :=
      natToBytes_length_le _ 8 (by norm_num at hp ⊢; omega)
    set lb := natToBytes p.length with hlb
    have henc : encListPayload p = (247 + lb.length) :: (lb ++ p) := by
      simp [encListPayload, encLength, h56, hlb]
    rw [henc]
    simp only [List.cons_append, List.append_assoc, parseListItem]
    have hllpos : 1 ≤ lb.length := by
      cases hlbe : lb with
      | nil => exact absurd hlbe hll1
      | cons a s => simp
    rw [if_neg (by omega), if_neg (by omega)]
    have h247 : 247 + lb.length - 247 = lb.length := by omega
    rw [h247]
    rw [if_neg (by simp only [List.length_append]; omega)]
    rw [List.take_left' rfl, List.drop_left' rfl]
    rw [if_neg (by simpa [hlb] using natToBytes_headD p.length)]
    rw [hlb, bytesToNat_natToBytes]
    rw [if_neg (by omega)]
    rw [if_neg (by simp only [List.length_append]; omega)]
    rw [List.take_left' rfl, List.drop_left' rfl]

end CancunTx

namespace CancunTx

/-! ### Round-trip of the scalar and fixed-width field parsers. -/

theorem parseNat_enc (n : Nat) (rest : Bytes) (h : n < 2 ^ 256) :
    parseNat (encNat n ++ rest) = some (n, rest) := by
  have h32 : (natToBytes n).length ≤ 32 :=
    natToBytes_length_le n 32 (by norm_num at h ⊢; omega)
  simp only [parseNat, encNat]
  rw [parseBytesItem_enc _ _ (by omega)]
  have hh := natToBytes_headD n
  rw [List.headD_eq_head?_getD] at hh
  simp [hh, bytesToNat_natToBytes]

theorem parseU64f_enc (u : U64) (rest : Bytes) :
    parseU64f (encNat u.val ++ rest) = some (u, rest) := by
  simp only [parseU64f]
  rw [parseNat_enc _ _ (lt_trans u.2 (by norm_num))]
  have hu := u.2
  norm_num at hu
  simp [hu]

theorem parseU256f_enc (u : U256) (rest : Bytes) :
    parseU256f (encNat u.val ++ rest) = some (u, rest) := by
  simp only [parseU256f]
  rw [parseNat_enc _ _ u.2]
  have hu := u.2
  norm_num at hu
  simp [hu]

theorem parseAddressItem_enc (a : Address) (rest : Bytes) :
    parseAddressItem (encBytesItem a.val ++ rest) = some (a, rest) := by
  simp only [parseAddressItem]
  rw [parseBytesItem_enc _ _ (by rw [a.2]; norm_num)]
  simp [a.2]

theorem parseToItem_enc (t : ToField) (rest : Bytes) :
    parseToItem (encTo t ++ rest) = some (t, rest) := by
  cases t with
  | none =>
    simp only [parseToItem, encTo]
    rw [parseBytesItem_enc _ _ (by norm_num)]
    simp
  | some a =>
    have hne : a.val ≠ [] := by
      intro h
      have h2 := a.2
      rw [h] at h2
      simp at h2
    simp only [parseToItem, encTo]
    rw [parseBytesItem_enc _ _ (by rw [a.2]; norm_num)]
    simp [a.2, hne]

theorem parseB32Item_enc (k : Bytes32) (rest : Bytes) :
    parseB32Item (encB32 k ++ rest) = some (k, rest) := by
  simp only [parseB32Item, encB32]
  rw [parseBytesItem_enc _ _ (by rw [k.2]; norm_num)]
  simp [k.2]

theorem encB32_length (k : Bytes32) : (encB32 k).length = 33 := by
  rw [encB32, encBytesItem_of_length_ne_one _ (by rw [k.2]; norm_num)]
  simp [encLength, k.2]

theorem encB32_ne_nil (k : Bytes32) : encB32 k ≠ [] := by
  intro h
  have := encB32_length k
  rw [h] at this
  simp at this

end CancunTx

namespace CancunTx

/-! ### Round-trip of the homogeneous list payloads. -/

theorem b32sPayload_length (ks : List Bytes32) :
    ((ks.map encB32).flatten).length = 33 * ks.length := by
  induction ks with
  | nil => simp
  | cons k t ih =>
    simp only [List.map_cons, List.flatten_cons, List.length_append, ih,
      encB32_length, List.length_cons]
    ring

theorem parseB32ListAux_enc : ∀ (ks : List Bytes32) (fuel : Nat),
    ((ks.map encB32).flatten).length ≤ fuel →
    parseB32ListAux fuel ((ks.map encB32).flatten) = some ks := by
  intro ks
  induction ks with
  | nil => intro fuel h; simp [parseB32ListAux]
  | cons k t ih =>
    intro fuel h
    have hk33 : (encB32 k).length = 33 := encB32_length k
    simp only [List.map_cons, List.flatten_cons] at h ⊢
    have hlenall : 33 + ((t.map encB32).flatten).length ≤ fuel := by
      rw [List.length_append, hk33] at h
      omega
    cases fuel with
    | zero => omega
    | succ f =>
      obtain ⟨x, xs, hxe⟩ : ∃ x xs, encB32 k = x :: xs := by
        cases hce : encB32 k with
        | nil => rw [hce] at hk33; simp at hk33
        | cons a s => exact ⟨a, s, rfl⟩
      have ht : ((t.map encB32).flatten).length ≤ f := by omega
      rw [hxe, List.cons_append, parseB32ListAux, ← List.cons_append, ← hxe,
        parseB32Item_enc k _]
      · simp [ih f ht]
      · simp

theorem parseB32List_enc (ks : List Bytes32) :
    parseB32List ((ks.map encB32).flatten) = some ks :=
  parseB32ListAux_enc ks _ le_rfl

end CancunTx

namespace CancunTx

/-! ### Round-trip of access-list entries. -/

theorem encAddrItem_length (a : Address) : (encBytesItem a.val).length = 21 := by
  rw [encBytesItem_of_length_ne_one _ (by rw [a.2]; norm_num)]
  simp [encLength, a.2]

theorem flatten_map_length_le {α : Type} (l : List α) (f : α → Bytes) (c : Nat)
    (h : ∀ x ∈ l, (f x).length ≤ c) : ((l.map f).flatten).length ≤ l.length * c := by
  induction l with
  | nil => simp
  | cons x t ih =>
    simp only [List.map_cons, List.flatten_cons, List.length_append, List.length_cons]
    have hx := h x (by simp)
    have ht := ih (fun y hy => h y (by simp [hy]))
    calc (f x).length + ((t.map f).flatten).length ≤ c + t.length * c := by omega
      _ = (t.length + 1) * c := by ring

theorem parseAccessEntry_enc (e : Address × List Bytes32) (rest : Bytes)
    (hk : e.2.length < 2 ^ 24) :
    parseAccessEntry (encAccessEntry e ++ rest) = some (e, rest) := by
  have hKp : ((e.2.map encB32).flatten).length = 33 * e.2.length :=
    b32sPayload_length _
  have hKp64 : ((e.2.map encB32).flatten).length < 2 ^ 64 := by
    rw [hKp]; norm_num at hk ⊢; omega
  have hKw : (encListPayload ((e.2.map encB32).flatten)).length ≤
      ((e.2.map encB32).flatten).length + 9 := encListPayload_length_le _ hKp64
  have hP : (encBytesItem e.1.val ++ encListPayload ((e.2.map encB32).flatten)).length
      < 2 ^ 64 := by
    rw [List.length_append, encAddrItem_length]
    rw [hKp] at hKw
    norm_num at hk hKw ⊢
    omega
  have h1 := parseListItem_enc _ rest hP
  have h2 := parseAddressItem_enc e.1 (encListPayload ((e.2.map encB32).flatten))
  have h3 : parseListItem (encListPayload ((e.2.map encB32).flatten)) =
      some ((e.2.map encB32).flatten, []) := by
    have := parseListItem_enc ((e.2.map encB32).flatten) [] hKp64
    simpa using this
  have h4 := parseB32List_enc e.2
  simp [parseAccessEntry, encAccessEntry, h1, h2, h3, h4]

theorem encAccessEntry_ne_nil (e : Address × List Bytes32) : encAccessEntry e ≠ [] :=
  encListPayload_ne_nil _

theorem encAccessEntry_length_le (e : Address × List Bytes32)
    (hk : e.2.length < 2 ^ 24) : (encAccessEntry e).length ≤ 2 ^ 30 := by
  have hKp : ((e.2.map encB32).flatten).length = 33 * e.2.length :=
    b32sPayload_length _
  have hKp64 : ((e.2.map encB32).flatten).length < 2 ^ 64 := by
    rw [hKp]; norm_num at hk ⊢; omega
  have hKw := encListPayload_length_le _ hKp64
  have hP : (encBytesItem e.1.val ++ encListPayload ((e.2.map encB32).flatten)).length
      < 2 ^ 64 := by
    rw [List.length_append, encAddrItem_length]
    rw [hKp] at hKw
    norm_num at hk hKw ⊢
    omega
  have := encListPayload_length_le _ hP
  rw [List.length_append, encAddrItem_length] at this
  rw [hKp] at hKw
  simp only [encAccessEntry]
  norm_num at hk hKw this ⊢
  omega

theorem parseEntriesAux_enc : ∀ (al : AccessList) (fuel : Nat),
    (∀ e ∈ al, e.2.length < 2 ^ 24) →
    ((al.map encAccessEntry).flatten).length ≤ fuel →
    parseEntriesAux fuel ((al.map encAccessEntry).flatten) = some al := by
  intro al
  induction al with
  | nil => intro fuel _ _; simp [parseEntriesAux]
  | cons e t ih =>
    intro fuel hwf h
    have hepos : 0 < (encAccessEntry e).length :=
      List.length_pos.mpr (encAccessEntry_ne_nil e)
    simp only [List.map_cons, List.flatten_cons] at h ⊢
    rw [List.length_append] at h
    cases fuel with
    | zero => omega
    | succ f =>
      obtain ⟨x, xs, hxe⟩ : ∃ x xs, encAccessEntry e = x :: xs := by
        cases hce : encAccessEntry e with
        | nil => exact absurd hce (encAccessEntry_ne_nil e)
        | cons a s => exact ⟨a, s, rfl⟩
      have ht : ((t.map encAccessEntry).flatten).length ≤ f := by omega
      rw [hxe, List.cons_append, parseEntriesAux, ← List.cons_append, ← hxe,
        parseAccessEntry_enc e _ (hwf e (by simp))]
      · simp [ih f (fun y hy => hwf y (by simp [hy])) ht]
      · simp

theorem parseAccessListPayload_enc (al : AccessList)
    (hwf : ∀ e ∈ al, e.2.length < 2 ^ 24) :
    parseAccessListPayload ((al.map encAccessEntry).flatten) = some al :=
  parseEntriesAux_enc al _ hwf le_rfl

end CancunTx

namespace CancunTx

/-! ### Round-trip of the grouped field parsers. -/

theorem encTo_length_le (t : ToField) : (encTo t).length ≤ 21 := by
  cases t with
  | none => simp [encTo, encBytesItem, encLength]
  | some a => simp [encTo, encAddrItem_length a]

theorem encAccessList_flatten_le (al : AccessList) (hal : al.length < 2 ^ 24)
    (hale : ∀ e ∈ al, e.2.length < 2 ^ 24) :
    ((al.map encAccessEntry).flatten).length < 2 ^ 64 := by
  have := flatten_map_length_le al encAccessEntry (2 ^ 30)
    (fun e he => encAccessEntry_length_le e (hale e he))
  norm_num at hal this ⊢
  nlinarith

theorem encAccessList_length_le (al : AccessList) (hal : al.length < 2 ^ 24)
    (hale : ∀ e ∈ al, e.2.length < 2 ^ 24) :
    (encAccessList al).length ≤ 2 ^ 55 := by
  have hfl := flatten_map_length_le al encAccessEntry (2 ^ 30)
    (fun e he => encAccessEntry_length_le e (hale e he))
  have h64 := encAccessList_flatten_le al hal hale
  have := encListPayload_length_le _ h64
  simp only [encAccessList]
  norm_num at hal hfl this ⊢
  nlinarith

theorem encHashes_flatten_le (hs : List VersionedHash) (hhs : hs.length < 2 ^ 24) :
    ((hs.map encB32).flatten).length < 2 ^ 64 := by
  rw [b32sPayload_length]
  norm_num at hhs ⊢
  omega

theorem encHashes_length_le (hs : List VersionedHash) (hhs : hs.length < 2 ^ 24) :
    (encHashes hs).length ≤ 2 ^ 30 := by
  have h64 := encHashes_flatten_le hs hhs
  have := encListPayload_length_le _ h64
  have hfl := b32sPayload_length hs
  simp only [encHashes]
  norm_num at hhs hfl this ⊢
  omega

theorem parseSig_enc (y r s : U256) (rest : Bytes) :
    parseSig (encNat y.val ++ (encNat r.val ++ (encNat s.val ++ rest))) =
      some ((y, r, s), rest) := by
  simp [parseSig, parseU256f_enc]

theorem parseSig_enc_nil (y r s : U256) :
    parseSig (encNat y.val ++ (encNat r.val ++ encNat s.val)) =
      some ((y, r, s), []) := by
  have := parseSig_enc y r s []
  simpa using this

theorem parseALHead_enc (c : U64) (n : U256) (gp g : Uint) (rest : Bytes)
    (hgp : gp < 2 ^ 256) (hg : g < 2 ^ 256) :
    parseALHead (encNat c.val ++ (encNat n.val ++ (encNat gp ++ (encNat g ++ rest)))) =
      some ((c, n, gp, g), rest) := by
  have e1 := parseNat_enc gp (encNat g ++ rest) hgp
  have e2 := parseNat_enc g rest hg
  simp [parseALHead, parseU64f_enc, parseU256f_enc, e1, e2]

theorem parseFMHead_enc (c : U64) (n : U256) (mpf mf g : Uint) (rest : Bytes)
    (hmpf : mpf < 2 ^ 256) (hmf : mf < 2 ^ 256) (hg : g < 2 ^ 256) :
    parseFMHead (encNat c.val ++ (encNat n.val ++ (encNat mpf ++ (encNat mf ++
      (encNat g ++ rest))))) = some ((c, n, mpf, mf, g), rest) := by
  have e1 := parseNat_enc mpf (encNat mf ++ (encNat g ++ rest)) hmpf
  have e2 := parseNat_enc mf (encNat g ++ rest) hmf
  have e3 := parseNat_enc g rest hg
  simp [parseFMHead, parseU64f_enc, parseU256f_enc, e1, e2, e3]

theorem parseMid_enc (t : ToField) (v : U256) (dat : Bytes) (al : AccessList)
    (rest : Bytes) (hdat : dat.length < 2 ^ 32) (hal : al.length < 2 ^ 24)
    (hale : ∀ e ∈ al, e.2.length < 2 ^ 24) :
    parseMid (encTo t ++ (encNat v.val ++ (encBytesItem dat ++
      (encAccessList al ++ rest)))) = some ((t, v, dat, al), rest) := by
  have hdat64 : dat.length < 2 ^ 64 := by norm_num at hdat ⊢; omega
  have hfl := encAccessList_flatten_le al hal hale
  have hAL : parseListItem (encAccessList al ++ rest) =
      some ((al.map encAccessEntry).flatten, rest) := by
    simp only [encAccessList]
    exact parseListItem_enc _ rest hfl
  simp [parseMid, parseToItem_enc, parseU256f_enc, parseBytesItem_enc _ _ hdat64,
    hAL, parseAccessListPayload_enc al hale]

theorem parseBlobMid_enc (a : Address) (v : U256) (dat : Bytes) (al : AccessList)
    (rest : Bytes) (hdat : dat.length < 2 ^ 32) (hal : al.length < 2 ^ 24)
    (hale : ∀ e ∈ al, e.2.length < 2 ^ 24) :
    parseBlobMid (encBytesItem a.val ++ (encNat v.val ++ (encBytesItem dat ++
      (encAccessList al ++ rest)))) = some ((a, v, dat, al), rest) := by
  have hdat64 : dat.length < 2 ^ 64 := by norm_num at hdat ⊢; omega
  have hfl := encAccessList_flatten_le al hal hale
  have hAL : parseListItem (encAccessList al ++ rest) =
      some ((al.map encAccessEntry).flatten, rest) := by
    simp only [encAccessList]
    exact parseListItem_enc _ rest hfl
  simp [parseBlobMid, parseAddressItem_enc, parseU256f_enc,
    parseBytesItem_enc _ _ hdat64, hAL, parseAccessListPayload_enc al hale]

theorem parseBlobGroup_enc (m : U256) (hs : List VersionedHash) (rest : Bytes)
    (hhs : hs.length < 2 ^ 24) :
    parseBlobGroup (encNat m.val ++ (encHashes hs ++ rest)) =
      some ((m, hs), rest) := by
  have hfl := encHashes_flatten_le hs hhs
  have hH : parseListItem (encHashes hs ++ rest) =
      some ((hs.map encB32).flatten, rest) := by
    simp only [encHashes]
    exact parseListItem_enc _ rest hfl
  simp [parseBlobGroup, parseU256f_enc, hH, parseB32List_enc hs]

end CancunTx

namespace CancunTx

/-! ### Round-trip of `rlp.decode_to` against `rlp.encode`, per variant. -/

theorem accessListPayload_le (tx : AccessListTransaction)
    (h1 : tx.gas_price < 2 ^ 256) (h2 : tx.gas < 2 ^ 256)
    (h3 : tx.data.length < 2 ^ 32) (h4 : tx.access_list.length < 2 ^ 24)
    (h5 : ∀ e ∈ tx.access_list, e.2.length < 2 ^ 24) :
    (accessListPayload tx).length < 2 ^ 64 := by
  have b1 := encNat_length_le tx.chain_id.val (lt_trans tx.chain_id.2 (by norm_num))
  have b2 := encNat_length_le tx.nonce.val tx.nonce.2
  have b3 := encNat_length_le tx.gas_price h1
  have b4 := encNat_length_le tx.gas h2
  have b5 := encTo_length_le tx.«to»
  have b6 := encNat_length_le tx.value.val tx.value.2
  have b7 : (encBytesItem tx.data).length ≤ tx.data.length + 9 :=
    encBytesItem_length_le _ (by norm_num at h3 ⊢; omega)
  have b8 := encAccessList_length_le tx.access_list h4 h5
  have b9 := encNat_length_le tx.y_parity.val tx.y_parity.2
  have b10 := encNat_length_le tx.r.val tx.r.2
  have b11 := encNat_length_le tx.s.val tx.s.2
  simp only [accessListPayload, List.length_append]
  norm_num at h3 b8 ⊢
  omega

theorem feeMarketPayload_le (tx : FeeMarketTransaction)
    (h1 : tx.max_priority_fee_per_gas < 2 ^ 256) (h2 : tx.max_fee_per_gas < 2 ^ 256)
    (h3 : tx.gas < 2 ^ 256) (h4 : tx.data.length < 2 ^ 32)
    (h5 : tx.access_list.length < 2 ^ 24)
    (h6 : ∀ e ∈ tx.access_list, e.2.length < 2 ^ 24) :
    (feeMarketPayload tx).length < 2 ^ 64 := by
  have b1 := encNat_length_le tx.chain_id.val (lt_trans tx.chain_id.2 (by norm_num))
  have b2 := encNat_length_le tx.nonce.val tx.nonce.2
  have b3 := encNat_length_le tx.max_priority_fee_per_gas h1
  have b4 := encNat_length_le tx.max_fee_per_gas h2
  have b5 := encNat_length_le tx.gas h3
  have b6 := encTo_length_le tx.«to»
  have b7 := encNat_length_le tx.value.val tx.value.2
  have b8 : (encBytesItem tx.data).length ≤ tx.data.length + 9 :=
    encBytesItem_length_le _ (by norm_num at h4 ⊢; omega)
  have b9 := encAccessList_length_le tx.access_list h5 h6
  have b10 := encNat_length_le tx.y_parity.val tx.y_parity.2
  have b11 := encNat_length_le tx.r.val tx.r.2
  have b12 := encNat_length_le tx.s.val tx.s.2
  simp only [feeMarketPayload, List.length_append]
  norm_num at h4 b9 ⊢
  omega

theorem blobPayload_le (tx : BlobTransaction)
    (h1 : tx.max_priority_fee_per_gas < 2 ^ 256) (h2 : tx.max_fee_per_gas < 2 ^ 256)
    (h3 : tx.gas < 2 ^ 256) (h4 : tx.data.length < 2 ^ 32)
    (h5 : tx.access_list.length < 2 ^ 24)
    (h6 : ∀ e ∈ tx.access_list, e.2.length < 2 ^ 24)
    (h7 : tx.blob_versioned_hashes.length < 2 ^ 24) :
    (blobPayload tx).length < 2 ^ 64 := by
  have b1 := encNat_length_le tx.chain_id.val (lt_trans tx.chain_id.2 (by norm_num))
  have b2 := encNat_length_le tx.nonce.val tx.nonce.2
  have b3 := encNat_length_le tx.max_priority_fee_per_gas h1
  have b4 := encNat_length_le tx.max_fee_per_gas h2
  have b5 := encNat_length_le tx.gas h3
  have b6 := encAddrItem_length tx.«to»
  have b7 := encNat_length_le tx.value.val tx.value.2
  have b8 : (encBytesItem tx.data).length ≤ tx.data.length + 9 :=
    encBytesItem_length_le _ (by norm_num at h4 ⊢; omega)
  have b9 := encAccessList_length_le tx.access_list h5 h6
  have b10 := encNat_length_le tx.max_fee_per_blob_gas.val tx.max_fee_per_blob_gas.2
  have b11 := encHashes_length_le tx.blob_versioned_hashes h7
  have b12 := encNat_length_le tx.y_parity.val tx.y_parity.2
  have b13 := encNat_length_le tx.r.val tx.r.2
  have b14 := encNat_length_le tx.s.val tx.s.2
  simp only [blobPayload, List.length_append]
  norm_num at h4 b9 b11 ⊢
  omega

theorem decodeToAccessList_enc (tx : AccessListTransaction)
    (h1 : tx.gas_price < 2 ^ 256) (h2 : tx.gas < 2 ^ 256)
    (h3 : tx.data.length < 2 ^ 32) (h4 : tx.access_list.length < 2 ^ 24)
    (h5 : ∀ e ∈ tx.access_list, e.2.length < 2 ^ 24) :
    decodeToAccessList (rlpEncodeAccessList tx) = some tx := by
  have hpay := accessListPayload_le tx h1 h2 h3 h4 h5
  have h0 : parseListItem (encListPayload (accessListPayload tx)) =
      some (accessListPayload tx, []) := by
    simpa using parseListItem_enc (accessListPayload tx) [] hpay
  have hhead := parseALHead_enc tx.chain_id tx.nonce tx.gas_price tx.gas
    (encTo tx.«to» ++ (encNat tx.value.val ++ (encBytesItem tx.data ++
      (encAccessList tx.access_list ++ (encNat tx.y_parity.val ++
        (encNat tx.r.val ++ encNat tx.s.val)))))) h1 h2
  have hmid := parseMid_enc tx.«to» tx.value tx.data tx.access_list
    (encNat tx.y_parity.val ++ (encNat tx.r.val ++ encNat tx.s.val)) h3 h4 h5
  have hsig := parseSig_enc_nil tx.y_parity tx.r tx.s
  simp only [decodeToAccessList, rlpEncodeAccessList, h0]
  simp only [accessListPayload, List.append_assoc]
  simp [hhead, hmid, hsig]

theorem decodeToFeeMarket_enc (tx : FeeMarketTransaction)
    (h1 : tx.max_priority_fee_per_gas < 2 ^ 256) (h2 : tx.max_fee_per_gas < 2 ^ 256)
    (h3 : tx.gas < 2 ^ 256) (h4 : tx.data.length < 2 ^ 32)
    (h5 : tx.access_list.length < 2 ^ 24)
    (h6 : ∀ e ∈ tx.access_list, e.2.length < 2 ^ 24) :
    decodeToFeeMarket (rlpEncodeFeeMarket tx) = some tx := by
  have hpay := feeMarketPayload_le tx h1 h2 h3 h4 h5 h6
  have h0 : parseListItem (encListPayload (feeMarketPayload tx)) =
      some (feeMarketPayload tx, []) := by
    simpa using parseListItem_enc (feeMarketPayload tx) [] hpay
  have hhead := parseFMHead_enc tx.chain_id tx.nonce tx.max_priority_fee_per_gas
    tx.max_fee_per_gas tx.gas
    (encTo tx.«to» ++ (encNat tx.value.val ++ (encBytesItem tx.data ++
      (encAccessList tx.access_list ++ (encNat tx.y_parity.val ++
        (encNat tx.r.val ++ encNat tx.s.val)))))) h1 h2 h3
  have hmid := parseMid_enc tx.«to» tx.value tx.data tx.access_list
    (encNat tx.y_parity.val ++ (encNat tx.r.val ++ encNat tx.s.val)) h4 h5 h6
  have hsig := parseSig_enc_nil tx.y_parity tx.r tx.s
  simp only [decodeToFeeMarket, rlpEncodeFeeMarket, h0]
  simp only [feeMarketPayload, List.append_assoc]
  simp [hhead, hmid, hsig]

theorem decodeToBlob_enc (tx : BlobTransaction)
    (h1 : tx.max_priority_fee_per_gas < 2 ^ 256) (h2 : tx.max_fee_per_gas < 2 ^ 256)
    (h3 : tx.gas < 2 ^ 256) (h4 : tx.data.length < 2 ^ 32)
    (h5 : tx.access_list.length < 2 ^ 24)
    (h6 : ∀ e ∈ tx.access_list, e.2.length < 2 ^ 24)
    (h7 : tx.blob_versioned_hashes.length < 2 ^ 24) :
    decodeToBlob (rlpEncodeBlob tx) = some tx := by
  have hpay := blobPayload_le tx h1 h2 h3 h4 h5 h6 h7
  have h0 : parseListItem (encListPayload (blobPayload tx)) =
      some (blobPayload tx, []) := by
    simpa using parseListItem_enc (blobPayload tx) [] hpay
  have hhead := parseFMHead_enc tx.chain_id tx.nonce tx.max_priority_fee_per_gas
    tx.max_fee_per_gas tx.gas
    (encBytesItem tx.«to».val ++ (encNat tx.value.val ++ (encBytesItem tx.data ++
      (encAccessList tx.access_list ++ (encNat tx.max_fee_per_blob_gas.val ++
        (encHashes tx.blob_versioned_hashes ++ (encNat tx.y_parity.val ++
          (encNat tx.r.val ++ encNat tx.s.val)))))))) h1 h2 h3
  have hmid := parseBlobMid_enc tx.«to» tx.value tx.data tx.access_list
    (encNat tx.max_fee_per_blob_gas.val ++ (encHashes tx.blob_versioned_hashes ++
      (encNat tx.y_parity.val ++ (encNat tx.r.val ++ encNat tx.s.val)))) h4 h5 h6
  have hblob := parseBlobGroup_enc tx.max_fee_per_blob_gas tx.blob_versioned_hashes
    (encNat tx.y_parity.val ++ (encNat tx.r.val ++ encNat tx.s.val)) h7
  have hsig := parseSig_enc_nil tx.y_parity tx.r tx.s
  simp only [decodeToBlob, rlpEncodeBlob, h0]
  simp only [blobPayload, List.append_assoc]
  simp [hhead, hmid, hblob, hsig]

end CancunTx

namespace CancunTx

/-! ### The claims. -/

theorem except_bind_ok {α β : Type} (x : α) (f : α → Except PyError β) :
    (do
      let w ← Except.ok x
      f w) = f x := rfl

/-- C1: for every Transaction value of any of the four variants, constructible
under the data-model invariants (the width constraints under which the
external codec is defined), decoding the encoding gives back a structurally
equal value. -/
theorem C1_encode_decode_roundtrip (v : Transaction) (h : TransactionWf v) :
    (do
      let w ← encode_transaction (.tx v)
      decode_transaction w) = Except.ok v := by
  cases v with
  | legacy tx => rfl
  | accessList tx =>
    obtain ⟨h1, h2, h3, h4, h5⟩ := h
    rw [show encode_transaction (.tx (.accessList tx)) =
      Except.ok (.bytes (1 :: rlpEncodeAccessList tx)) from rfl, except_bind_ok]
    simp [decode_transaction, decodeToAccessList_enc tx h1 h2 h3 h4 h5]
  | feeMarket tx =>
    obtain ⟨h1, h2, h3, h4, h5, h6⟩ := h
    rw [show encode_transaction (.tx (.feeMarket tx)) =
      Except.ok (.bytes (2 :: rlpEncodeFeeMarket tx)) from rfl, except_bind_ok]
    simp [decode_transaction, decodeToFeeMarket_enc tx h1 h2 h3 h4 h5 h6]
  | blob tx =>
    obtain ⟨h1, h2, h3, h4, ⟨h5, h6⟩, h7⟩ := h
    rw [show encode_transaction (.tx (.blob tx)) =
      Except.ok (.bytes (3 :: rlpEncodeBlob tx)) from rfl, except_bind_ok]
    simp [decode_transaction, decodeToBlob_enc tx h1 h2 h3 h4 h5 h6 h7]

/-- C1 witness: the round-trip at the concrete scenario FeeMarket value. -/
theorem C1_encode_decode_roundtrip_witness :
    TransactionWf (.feeMarket scenarioFeeMarketTx) ∧
    (do
      let w ← encode_transaction (.tx (.feeMarket scenarioFeeMarketTx))
      decode_transaction w) = Except.ok (.feeMarket scenarioFeeMarketTx) :=
  ⟨by decide, C1_encode_decode_roundtrip _ (by decide)⟩

/-- C2 counterexample: `encode_transaction` of a concrete Legacy transaction
does not return the byte string of its structural list encoding (it returns
the record itself, unencoded). -/
theorem C2_counterexample :
    encode_transaction (.tx (.legacy sampleLegacyTx)) ≠
      Except.ok (.bytes (rlpEncodeLegacy sampleLegacyTx)) := by
  decide

/-- C2 amended: for every Legacy transaction, `encode_transaction` returns
the `LegacyTransaction` record itself unchanged — no discriminant byte and no
byte-level structural encoding is applied (serialisation is left to callers,
who treat the returned record as the structural list). -/
theorem C2_amended_legacy_encode_returns_record (tx : LegacyTransaction) :
    encode_transaction (.tx (.legacy tx)) = .ok (.record (.legacy tx)) := rfl

/-- C3: encoding an AccessList/FeeMarket/Blob value yields the byte string
whose first byte is exactly 0x01/0x02/0x03 respectively, followed by the
structural list encoding of that variant's fields in declared order. -/
theorem C3_typed_discriminant_bytes :
    (∀ tx : AccessListTransaction, encode_transaction (.tx (.accessList tx)) =
        .ok (.bytes (1 :: rlpEncodeAccessList tx))) ∧
    (∀ tx : FeeMarketTransaction, encode_transaction (.tx (.feeMarket tx)) =
        .ok (.bytes (2 :: rlpEncodeFeeMarket tx))) ∧
    (∀ tx : BlobTransaction, encode_transaction (.tx (.blob tx)) =
        .ok (.bytes (3 :: rlpEncodeBlob tx))) :=
  ⟨fun _ => rfl, fun _ => rfl, fun _ => rfl⟩

/-- C4: decoding any byte string whose first byte is 0x00 or at least 0x04
fails with the invalid-envelope block-validity error `InvalidBlock`. -/
theorem C4_reject_unknown_type_bytes (b0 : Nat) (rest : Bytes)
    (h : b0 = 0 ∨ 4 ≤ b0) :
    decode_transaction (.bytes (b0 :: rest)) = .error .invalidBlock := by
  have h1 : b0 ≠ 1 := by omega
  have h2 : b0 ≠ 2 := by omega
  have h3 : b0 ≠ 3 := by omega
  simp [decode_transaction, h1, h2, h3]

/-- C4 witness: rejection at the concrete inputs `[0x00]` and `[0x07, 0xff]`. -/
theorem C4_reject_unknown_type_bytes_witness :
    ((0 : Nat) = 0 ∨ 4 ≤ (0 : Nat)) ∧
    decode_transaction (.bytes [0]) = .error .invalidBlock ∧
    ((7 : Nat) = 0 ∨ 4 ≤ (7 : Nat)) ∧
    decode_transaction (.bytes [7, 255]) = .error .invalidBlock :=
  ⟨Or.inl rfl, C4_reject_unknown_type_bytes 0 [] (Or.inl rfl),
    Or.inr (by norm_num), C4_reject_unknown_type_bytes 7 [255] (Or.inr (by norm_num))⟩

/-- C5: every constructible BlobTransaction carries a concrete 20-byte
address in `to`; the empty no-recipient marker is excluded by the field's
type at construction time. -/
theorem C5_blob_to_is_concrete_address (tx : BlobTransaction) :
    tx.«to».val.length = 20 ∧ tx.«to».val ≠ [] := by
  refine ⟨tx.«to».2, ?_⟩
  intro h
  have h2 := tx.«to».2
  rw [h] at h2
  simp at h2

/-- C6: decoding an already-constructed Legacy record (not bytes) returns it
unchanged. -/
theorem C6_decode_idempotent_on_legacy_record (tx : LegacyTransaction) :
    decode_transaction (.record (.legacy tx)) = .ok (.legacy tx) := rfl

/-- C7: encoding a value outside the closed four-variant union fails with a
plain `Exception`, which is a different error kind from the `InvalidBlock`
that decoding raises for an unrecognized type byte. -/
theorem C7_encode_failure_distinct_from_decode_failure :
    (∀ v : ForeignValue, encode_transaction (.foreign v) =
        .error (.exception ("Unable to encode transaction of type " ++ v.typeName))) ∧
    (∀ (b0 : Nat) (rest : Bytes), b0 ≠ 1 → b0 ≠ 2 → b0 ≠ 3 →
        decode_transaction (.bytes (b0 :: rest)) = .error .invalidBlock) ∧
    (∀ s, PyError.exception s ≠ PyError.invalidBlock) := by
  refine ⟨fun v => rfl, ?_, fun s => by simp⟩
  intro b0 rest h1 h2 h3
  simp [decode_transaction, h1, h2, h3]

/-- C7 witness: the two failure kinds at concrete inputs. -/
theorem C7_encode_failure_distinct_witness :
    encode_transaction (.foreign ⟨"int"⟩) =
      .error (.exception "Unable to encode transaction of type int") ∧
    decode_transaction (.bytes [5]) = .error .invalidBlock ∧
    PyError.exception "Unable to encode transaction of type int" ≠
      PyError.invalidBlock :=
  ⟨C7_encode_failure_distinct_from_decode_failure.1 ⟨"int"⟩,
    C7_encode_failure_distinct_from_decode_failure.2.1 5 []
      (by decide) (by decide) (by decide),
    C7_encode_failure_distinct_from_decode_failure.2.2 _⟩

/-- C8: the concrete scenario FeeMarket transaction encodes to `0x02`
followed by the structural list encoding of its eleven fields in declared
order (shown as the explicit byte string), and decoding that exact byte
string reproduces the identical record. -/
theorem C8_concrete_feemarket_scenario :
    encode_transaction (.tx (.feeMarket scenarioFeeMarketTx)) =
      .ok (.bytes (2 :: rlpEncodeFeeMarket scenarioFeeMarketTx)) ∧
    rlpEncodeFeeMarket scenarioFeeMarketTx =
      [226, 1, 128, 1, 100, 130, 82, 8, 148, 0, 0, 0, 0, 0, 0, 0, 0, 0, 0,
        0, 0, 0, 0, 0, 0, 0, 0, 0, 0, 128, 128, 192, 128, 1, 1] ∧
    decode_transaction (.bytes (2 :: rlpEncodeFeeMarket scenarioFeeMarketTx)) =
      .ok (.feeMarket scenarioFeeMarketTx) :=
  ⟨rfl, by decide, by decide⟩

/-- C9: decoding the empty byte string fails with the out-of-bounds indexing
error (from reading the first byte), not with `InvalidBlock`. -/
theorem C9_decode_empty_bytes_index_error :
    decode_transaction (.bytes []) = .error .indexError ∧
      PyError.indexError ≠ PyError.invalidBlock :=
  ⟨rfl, by decide⟩

/-- C10: decoding returns every non-byte-string input unchanged, without
checking that it is a `LegacyTransaction`: any of the four records passed
directly is returned as-is. -/
theorem C10_decode_returns_nonbytes_unchanged (t : Transaction) :
    decode_transaction (.record t) = .ok t := rfl

end CancunTx
